import Mathlib

/-!
A shallow embedding of `src/main.py` (the "receiver" service: a durable,
serialized JSONL append server) together with proofs about it.

Conventions of the embedding:
* Python strings and file contents are `List Char`.
* A Python `dict`/JSON value is the inductive `Receiver.Json` below
  (floats are outside the model; ints are exact, as in Python).
* `json.dumps` with its default separators and `ensure_ascii=True` is
  `Receiver.dumpsJson`; `json.loads` restricted to that canonical output
  grammar is `Receiver.loads`.
* `datetime.utcnow()` results are `Receiver.PyDateTime` values (naive UTC,
  microsecond resolution, as CPython's `datetime` stores them), and
  `datetime.isoformat()` is `Receiver.isoformat`.
* The retry loop of `append_to_jsonl` is modelled with an error schedule
  `errs : Nat → Option (List Char)`: `errs i = some msg` means the
  write-and-sync body (`write_with_lock`, run via `asyncio.to_thread`)
  raises an exception with text `msg` on attempt index `i`; `errs i = none`
  means that attempt's body runs to completion.  A completed body appends
  the whole line (write+flush+fsync succeeded); a raising body leaves the
  file unchanged (the fault-injection model used by the spec).
* Calls to `datetime.utcnow()` during one request are numbered by a clock
  `clock : Nat → PyDateTime`: the i-th call returns `clock i`.
-/

namespace Receiver

/-- JSON values as the server handles them: the payload field `data` is a
Python `Dict[str, Any]` decoded from a JSON object.  Numbers are modelled
as exact integers (floats are outside the embedding). -/
inductive Json where
  | null : Json
  | bool (b : Bool) : Json
  | int (n : Int) : Json
  | str (s : List Char) : Json
  | arr (elems : List Json) : Json
  | obj (members : List (List Char × Json)) : Json

/-- Decimal digit character, `chr(48 + d)` for `d < 10`. -/
def digitChar (d : Nat) : Char := Char.ofNat (48 + d)

/-- Lowercase hexadecimal digit character (as CPython's `\uXXXX` escapes use). -/
def hexChar (d : Nat) : Char :=
  if d < 10 then Char.ofNat (48 + d) else Char.ofNat (87 + d)

/-- Four lowercase hex digits of `n < 0x10000`, most significant first. -/
def hex4 (n : Nat) : List Char :=
  [hexChar (n / 4096 % 16), hexChar (n / 256 % 16), hexChar (n / 16 % 16), hexChar (n % 16)]

/-- Decimal representation of a natural number, as Python's `repr`/`json.dumps`
print it (no leading zeros, `0` for zero). -/
def dumpsNat (n : Nat) : List Char :=
  if n = 0 then [digitChar 0] else ((Nat.digits 10 n).map digitChar).reverse

/-- Decimal representation of a Python int (a `-` sign for negatives). -/
def dumpsInt (n : Int) : List Char :=
  if n < 0 then '-' :: dumpsNat n.natAbs else dumpsNat n.natAbs

/-- How `json.dumps` (default `ensure_ascii=True`) escapes one character of a
string: `"` and `\` get two-character escapes, the known control characters
get their short escapes, printable ASCII is emitted literally, everything
else becomes `\uXXXX` (a surrogate pair for astral code points). -/
def escChar (c : Char) : List Char :=
  if c = '"' then ['\\', '"']
  else if c = '\\' then ['\\', '\\']
  else if c.toNat = 8 then ['\\', 'b']
  else if c.toNat = 9 then ['\\', 't']
  else if c.toNat = 10 then ['\\', 'n']
  else if c.toNat = 12 then ['\\', 'f']
  else if c.toNat = 13 then ['\\', 'r']
  else if 32 ≤ c.toNat ∧ c.toNat ≤ 126 then [c]
  else if c.toNat < 65536 then '\\' :: 'u' :: hex4 c.toNat
  else
    '\\' :: 'u' :: hex4 (55296 + (c.toNat - 65536) / 1024)
      ++ '\\' :: 'u' :: hex4 (56320 + (c.toNat - 65536) % 1024)

/-- Escape every character of a string body. -/
def escStr : List Char → List Char
  | [] => []
  | c :: s => escChar c ++ escStr s

/-- `json.dumps` of a string: quoted, escaped body. -/
def dumpsStr (s : List Char) : List Char := '"' :: escStr s ++ ['"']

mutual

/-- `json.dumps(v)` with the default separators `(', ', ': ')`. -/
def dumpsJson : Json → List Char
  | Json.null => ['n', 'u', 'l', 'l']
  | Json.bool true => ['t', 'r', 'u', 'e']
  | Json.bool false => ['f', 'a', 'l', 's', 'e']
  | Json.int n => dumpsInt n
  | Json.str s => dumpsStr s
  | Json.arr xs => '[' :: dumpsElems xs ++ [']']
  | Json.obj kvs => '\x7b' :: dumpsMembers kvs ++ ['\x7d']

/-- Array elements joined by `", "`. -/
def dumpsElems : List Json → List Char
  | [] => []
  | [x] => dumpsJson x
  | x :: y :: xs => dumpsJson x ++ ',' :: ' ' :: dumpsElems (y :: xs)

/-- Object members, each `"key": value`, joined by `", "`. -/
def dumpsMembers : List (List Char × Json) → List Char
  | [] => []
  | [(k, v)] => dumpsStr k ++ ':' :: ' ' :: dumpsJson v
  | (k, v) :: m :: kvs =>
      dumpsStr k ++ ':' :: ' ' :: dumpsJson v ++ ',' :: ' ' :: dumpsMembers (m :: kvs)

end

/-- A naive CPython `datetime` value (what `datetime.utcnow()` returns):
calendar fields at microsecond resolution, no timezone attached, the
instant being UTC by construction of `utcnow`. -/
structure PyDateTime where
  year : Nat
  month : Nat
  day : Nat
  hour : Nat
  minute : Nat
  second : Nat
  microsecond : Nat
deriving DecidableEq

/-- Whether a year is a Gregorian leap year (CPython `calendar.isleap`). -/
def isLeap (y : Nat) : Bool := y % 4 = 0 && (y % 100 ≠ 0 || y % 400 = 0)

/-- Days in a month (CPython `calendar.monthrange` logic). -/
def monthLen (y m : Nat) : Nat :=
  if m = 2 then (if isLeap y then 29 else 28)
  else if m = 4 || m = 6 || m = 9 || m = 11 then 30
  else 31

/-- The field invariants CPython's `datetime` constructor enforces; every
value `datetime.utcnow()` can return satisfies them. -/
def validDT (d : PyDateTime) : Bool :=
  1 ≤ d.year && d.year ≤ 9999 && 1 ≤ d.month && d.month ≤ 12 &&
  1 ≤ d.day && d.day ≤ monthLen d.year d.month &&
  d.hour ≤ 23 && d.minute ≤ 59 && d.second ≤ 59 && d.microsecond ≤ 999999

/-- Two zero-padded decimal digits (`"%02d"` for values below 100). -/
def pad2 (n : Nat) : List Char := [digitChar (n / 10 % 10), digitChar (n % 10)]

/-- Four zero-padded decimal digits (`"%04d"` for values below 10000). -/
def pad4 (n : Nat) : List Char := pad2 (n / 100) ++ pad2 (n % 100)

/-- Six zero-padded decimal digits (`"%06d"` for values below 1000000). -/
def pad6 (n : Nat) : List Char := pad2 (n / 10000) ++ pad2 (n / 100 % 100) ++ pad2 (n % 100)

/-- CPython `datetime.isoformat()`: `YYYY-MM-DDTHH:MM:SS` plus `.ffffff`
exactly when the microsecond field is nonzero (`timespec='auto'`). -/
def isoformat (d : PyDateTime) : List Char :=
  pad4 d.year ++ '-' :: pad2 d.month ++ '-' :: pad2 d.day ++
  'T' :: pad2 d.hour ++ ':' :: pad2 d.minute ++ ':' :: pad2 d.second ++
  (if d.microsecond = 0 then [] else '.' :: pad6 d.microsecond)

/-- Numeric value of a decimal digit character, `none` for anything else. -/
def digVal (c : Char) : Option Nat :=
  if 48 ≤ c.toNat ∧ c.toNat ≤ 57 then some (c.toNat - 48) else none

/-- `true` when the string does not begin with a decimal digit (so a maximal
digit run ends right before it). -/
def notDigitStart : List Char → Bool
  | [] => true
  | c :: _ => (digVal c).isNone

/-- Parse exactly two decimal digits. -/
def parse2 : List Char → Option (Nat × List Char)
  | a :: b :: r =>
    match digVal a, digVal b with
    | some x, some y => some (10 * x + y, r)
    | _, _ => none
  | _ => none

/-- Parse exactly four decimal digits. -/
def parse4 (s : List Char) : Option (Nat × List Char) :=
  match parse2 s with
  | some (h, r) =>
    match parse2 r with
    | some (l, r2) => some (100 * h + l, r2)
    | none => none
  | none => none

/-- Parse exactly six decimal digits. -/
def parse6 (s : List Char) : Option (Nat × List Char) :=
  match parse2 s with
  | some (a, r) =>
    match parse2 r with
    | some (b, r2) =>
      match parse2 r2 with
      | some (c, r3) => some (10000 * a + 100 * b + c, r3)
      | none => none
    | none => none
  | none => none

/-- Consume one expected character. -/
def expectChar (c : Char) : List Char → Option (List Char)
  | d :: r => if d = c then some r else none
  | [] => none

/-- Parse a complete ISO-8601 timestamp in the shape `datetime.isoformat()`
emits (`YYYY-MM-DDTHH:MM:SS[.ffffff]`), checking the `datetime` field
invariants; consumes the whole string. -/
def parseIso (s : List Char) : Option PyDateTime :=
  match parse4 s with
  | none => none
  | some (y, s1) =>
    match expectChar '-' s1 with
    | none => none
    | some s2 =>
      match parse2 s2 with
      | none => none
      | some (mo, s3) =>
        match expectChar '-' s3 with
        | none => none
        | some s4 =>
          match parse2 s4 with
          | none => none
          | some (da, s5) =>
            match expectChar 'T' s5 with
            | none => none
            | some s6 =>
              match parse2 s6 with
              | none => none
              | some (h, s7) =>
                match expectChar ':' s7 with
                | none => none
                | some s8 =>
                  match parse2 s8 with
                  | none => none
                  | some (mi, s9) =>
                    match expectChar ':' s9 with
                    | none => none
                    | some s10 =>
                      match parse2 s10 with
                      | none => none
                      | some (se, s11) =>
                        match s11 with
                        | [] =>
                          let d : PyDateTime := ⟨y, mo, da, h, mi, se, 0⟩
                          if validDT d then some d else none
                        | '.' :: s12 =>
                          match parse6 s12 with
                          | some (us, []) =>
                            let d : PyDateTime := ⟨y, mo, da, h, mi, se, us⟩
                            if validDT d && us ≠ 0 then some d else none
                          | _ => none
                        | _ => none

/-- Accumulate a maximal run of decimal digits (Python `int` parsing of the
digit run, used by the JSON number grammar). -/
def parseDigitsAux : Nat → List Char → Nat × List Char
  | acc, [] => (acc, [])
  | acc, c :: r =>
    match digVal c with
    | some d => parseDigitsAux (10 * acc + d) r
    | none => (acc, c :: r)

/-- Parse a nonempty run of decimal digits as a natural number. -/
def parseNumber : List Char → Option (Nat × List Char)
  | [] => none
  | c :: r =>
    match digVal c with
    | some d => some (parseDigitsAux d r)
    | none => none

/-- Map one option result, keeping the unconsumed rest. -/
def consFst (c : Char) : Option (List Char × List Char) → Option (List Char × List Char)
  | some (s, r) => some (c :: s, r)
  | none => none

/-- Numeric value of a (lowercase or uppercase) hex digit character. -/
def hexVal (c : Char) : Option Nat :=
  if 48 ≤ c.toNat ∧ c.toNat ≤ 57 then some (c.toNat - 48)
  else if 97 ≤ c.toNat ∧ c.toNat ≤ 102 then some (c.toNat - 87)
  else if 65 ≤ c.toNat ∧ c.toNat ≤ 70 then some (c.toNat - 55)
  else none

/-- Numeric value of four hex digit characters, most significant first. -/
def hexQuad (h1 h2 h3 h4 : Char) : Option Nat :=
  match hexVal h1, hexVal h2, hexVal h3, hexVal h4 with
  | some a, some b, some c, some d => some (a * 4096 + b * 256 + c * 16 + d)
  | _, _, _, _ => none

mutual

/-- Parse the body of a JSON string after the opening quote, decoding the
escapes `json.dumps` can emit (including surrogate pairs). -/
def parseStringRest : List Char → Option (List Char × List Char)
  | [] => none
  | c :: r =>
    if c = '"' then some ([], r)
    else if c = '\\' then parseEscape r
    else consFst c (parseStringRest r)
termination_by s => 2 * s.length

/-- Decode one escape sequence (the character after a backslash). -/
def parseEscape : List Char → Option (List Char × List Char)
  | [] => none
  | e :: r =>
    if e = '"' then consFst '"' (parseStringRest r)
    else if e = '\\' then consFst '\\' (parseStringRest r)
    else if e = '/' then consFst '/' (parseStringRest r)
    else if e = 'b' then consFst (Char.ofNat 8) (parseStringRest r)
    else if e = 'f' then consFst (Char.ofNat 12) (parseStringRest r)
    else if e = 'n' then consFst (Char.ofNat 10) (parseStringRest r)
    else if e = 'r' then consFst (Char.ofNat 13) (parseStringRest r)
    else if e = 't' then consFst (Char.ofNat 9) (parseStringRest r)
    else if e = 'u' then
      match r with
      | h1 :: h2 :: h3 :: h4 :: r2 => parseUnicode (hexQuad h1 h2 h3 h4) r2
      | _ => none
    else none
termination_by s => 2 * s.length + 1

/-- Decode the payload of a `\uXXXX` escape whose hex value is `o`
(possibly the first half of a surrogate pair, whose second half follows
in the text). -/
def parseUnicode : Option Nat → List Char → Option (List Char × List Char)
  | none, _ => none
  | some n, r =>
    if 55296 ≤ n ∧ n < 56320 then
      match r with
      | b1 :: u2 :: g1 :: g2 :: g3 :: g4 :: r2 =>
        if b1 = '\\' ∧ u2 = 'u' then
          match hexQuad g1 g2 g3 g4 with
          | some m =>
            if 56320 ≤ m ∧ m < 57344 then
              consFst (Char.ofNat ((n - 55296) * 1024 + (m - 56320) + 65536))
                (parseStringRest r2)
            else none
          | none => none
        else none
      | _ => none
    else if 56320 ≤ n ∧ n < 57344 then none
    else consFst (Char.ofNat n) (parseStringRest r)
termination_by _ r => 2 * r.length + 1

end

mutual

/-- Recursive-descent parser for the canonical JSON text `dumpsJson`
produces (`fuel` bounds the recursion depth; `loads` supplies enough). -/
def parseJson : Nat → List Char → Option (Json × List Char)
  | 0, _ => none
  | _ + 1, [] => none
  | fuel + 1, c :: r =>
    if c = 'n' then
      match r with
      | 'u' :: 'l' :: 'l' :: r2 => some (Json.null, r2)
      | _ => none
    else if c = 't' then
      match r with
      | 'r' :: 'u' :: 'e' :: r2 => some (Json.bool true, r2)
      | _ => none
    else if c = 'f' then
      match r with
      | 'a' :: 'l' :: 's' :: 'e' :: r2 => some (Json.bool false, r2)
      | _ => none
    else if c = '"' then
      match parseStringRest r with
      | some (s, r2) => some (Json.str s, r2)
      | none => none
    else if c = '[' then
      match parseElems fuel r with
      | some (xs, r2) => some (Json.arr xs, r2)
      | none => none
    else if c = '\x7b' then
      match parseMembers fuel r with
      | some (kvs, r2) => some (Json.obj kvs, r2)
      | none => none
    else if c = '-' then
      match parseNumber r with
      | some (n, r2) => some (Json.int (-(n : Int)), r2)
      | none => none
    else
      match parseNumber (c :: r) with
      | some (n, r2) => some (Json.int (n : Int), r2)
      | none => none

/-- Parse array elements up to and including the closing `]`. -/
def parseElems : Nat → List Char → Option (List Json × List Char)
  | 0, _ => none
  | _ + 1, [] => none
  | fuel + 1, c :: r =>
    if c = ']' then some ([], r)
    else
      match parseJson fuel (c :: r) with
      | none => none
      | some (x, r1) =>
        match r1 with
        | ']' :: r2 => some ([x], r2)
        | ',' :: ' ' :: r2 =>
          match parseElems fuel r2 with
          | some (xs, r3) => some (x :: xs, r3)
          | none => none
        | _ => none

/-- Parse object members up to and including the closing `}`. -/
def parseMembers : Nat → List Char → Option (List (List Char × Json) × List Char)
  | 0, _ => none
  | _ + 1, [] => none
  | fuel + 1, c :: r =>
    if c = '\x7d' then some ([], r)
    else if c = '"' then
      match parseStringRest r with
      | none => none
      | some (k, r1) =>
        match r1 with
        | ':' :: ' ' :: r2 =>
          match parseJson fuel r2 with
          | none => none
          | some (v, r3) =>
            match r3 with
            | '\x7d' :: r4 => some ([(k, v)], r4)
            | ',' :: ' ' :: r4 =>
              match parseMembers fuel r4 with
              | some (kvs, r5) => some ((k, v) :: kvs, r5)
              | none => none
            | _ => none
        | _ => none
    else none

end

/-- `json.loads` restricted to the canonical `dumpsJson` grammar: parse a
whole string as one JSON value. -/
def loads (s : List Char) : Option Json :=
  match parseJson (s.length + 1) s with
  | some (e, []) => some e
  | _ => none

/-- Look a key up in a JSON object (first occurrence, as unique-key dicts
have). -/
def findKey (k : List Char) : List (List Char × Json) → Option Json
  | [] => none
  | (k1, v) :: kvs => if k1 = k then some v else findKey k kvs

/-- Field access on a JSON object value. -/
def lookupKey (k : List Char) : Json → Option Json
  | Json.obj kvs => findKey k kvs
  | _ => none

mutual

/-- Enough parser fuel for one value of the canonical grammar. -/
def needJ : Json → Nat
  | Json.arr xs => needE xs + 1
  | Json.obj kvs => needM kvs + 1
  | _ => 1

/-- Enough parser fuel for an element list. -/
def needE : List Json → Nat
  | [] => 1
  | [x] => needJ x + 1
  | x :: y :: ys => needJ x + needE (y :: ys) + 1

/-- Enough parser fuel for a member list. -/
def needM : List (List Char × Json) → Nat
  | [] => 1
  | [(_, v)] => needJ v + 1
  | (_, v) :: m :: kvs => needJ v + needM (m :: kvs) + 1

end

/-- The parser-inverts-the-serializer property of one JSON value, with any
following text that does not begin with a digit (so number parsing stops
at the value boundary). -/
def RTgood (e : Json) : Prop :=
  ∀ fuel rest, needJ e ≤ fuel → notDigitStart rest = true →
    parseJson fuel (dumpsJson e ++ rest) = some (e, rest)

/-! ## The append engine (`src/main.py`, lines 15-89) -/

/-- `MAX_RETRIES = 3` (line 17). -/
def MAX_RETRIES : Nat := 3

/-- The key `"timestamp"` of an Entry. -/
def tsKey : List Char := "timestamp".toList

/-- The key `"data"` of an Entry. -/
def dataKey : List Char := "data".toList

/-- `entry = {"timestamp": datetime.utcnow().isoformat(), "data": data}`
(lines 57-60): a two-member dict in insertion order. -/
def entryJson (ts : List Char) (data : Json) : Json :=
  Json.obj [(tsKey, Json.str ts), (dataKey, data)]

/-- The line one attempt writes: `json.dumps(entry) + '\n'` (line 74). -/
def entryLine (now : PyDateTime) (data : Json) : List Char :=
  dumpsJson (entryJson (isoformat now) data) ++ ['\n']

/-- The body `write_with_lock` (lines 65-77) run to completion on file
content `f` (`none` = the log file does not exist): create the file empty
if absent (lines 68-70), then open for append and write the line, flush
and fsync (lines 73-77). -/
def write_with_lock (line : List Char) (f : Option (List Char)) : List Char :=
  (f.getD []) ++ line

/-- The detail string of the final failure:
`f"Failed to write to file after {MAX_RETRIES} attempts: {str(e)}"`
(line 87). -/
def failDetail (k : Nat) (e : List Char) : List Char :=
  "Failed to write to file after ".toList ++ dumpsNat k ++ " attempts: ".toList ++ e

/-- Outcome of one `append_to_jsonl` call: resulting file content, the
returned value or raised `HTTPException` detail, and how many loop
iterations (attempts) ran. -/
structure AppendOut where
  file : Option (List Char)
  result : Except (List Char) Unit
  attempts : Nat

/-- The retry loop `for attempt in range(MAX_RETRIES)` (lines 62-89),
unrolled from attempt index `attempt` with `rem` iterations left.  A
successful body returns immediately (line 81); a raising body either
re-raises as the final `HTTPException` when `attempt == MAX_RETRIES - 1`
(lines 84-88) or sleeps and retries (line 89).  Falling off the loop end
(reachable only if the loop runs zero iterations) returns `None` like the
Python function does. -/
def appendGo (errs : Nat → Option (List Char)) (line : List Char)
    (f : Option (List Char)) : Nat → Nat → AppendOut
  | attempt, 0 => ⟨f, Except.ok (), attempt⟩
  | attempt, rem + 1 =>
    match errs attempt with
    | none => ⟨some (write_with_lock line f), Except.ok (), attempt + 1⟩
    | some e =>
      if attempt = MAX_RETRIES - 1 then
        ⟨f, Except.error (failDetail MAX_RETRIES e), attempt + 1⟩
      else appendGo errs line f (attempt + 1) rem

/-- `append_to_jsonl(data)` (lines 50-89): the entry and its timestamp are
constructed once, before the loop (lines 57-60, the single `utcnow()`
call of this function), then the write is attempted up to `MAX_RETRIES`
times.  `now` is the value that single `utcnow()` call returns. -/
def append_to_jsonl (errs : Nat → Option (List Char)) (now : PyDateTime)
    (data : Json) (f : Option (List Char)) : AppendOut :=
  appendGo errs (entryLine now data) f 0 MAX_RETRIES

/-- Modelled from the spec (§4.1 retry policy): the spec's reading that a
retry re-executes the whole sequence including step 1, so a fresh UTC
timestamp is captured and a new Entry is constructed at the start of every
attempt (`clock k` being the capture of attempt index `k`).  This
definition exists to be compared with `append_to_jsonl`, which is the
code's behavior. -/
def appendPerAttemptCapture (errs : Nat → Option (List Char))
    (clock : Nat → PyDateTime) (data : Json)
    (f : Option (List Char)) : Nat → Nat → AppendOut
  | attempt, 0 => ⟨f, Except.ok (), attempt⟩
  | attempt, rem + 1 =>
    match errs attempt with
    | none =>
        ⟨some (write_with_lock (entryLine (clock attempt) data) f), Except.ok (), attempt + 1⟩
    | some e =>
      if attempt = MAX_RETRIES - 1 then
        ⟨f, Except.error (failDetail MAX_RETRIES e), attempt + 1⟩
      else appendPerAttemptCapture errs clock data f (attempt + 1) rem

/-- The HTTP 200 body of `append_json` (lines 102-106). -/
structure SuccessResp where
  status : List Char
  message : List Char
  timestamp : List Char
deriving DecidableEq

/-- The endpoint `POST /append/` (lines 92-108): runs `append_to_jsonl`
on the decoded record; on success builds the response dict with a second,
fresh `utcnow()` call (line 105); on failure re-raises the exception's
string as an HTTP 500 detail (line 108; `str` of an `HTTPException` is
`"{status_code}: {detail}"`).  `clock i` is the value of the i-th
`utcnow()` call of the request. -/
def append_json (errs : Nat → Option (List Char)) (clock : Nat → PyDateTime)
    (data : Json) (f : Option (List Char)) :
    Option (List Char) × Except (List Char) SuccessResp :=
  let out := append_to_jsonl errs (clock 0) data f
  match out.result with
  | Except.ok _ =>
      (out.file,
        Except.ok ⟨"success".toList, "Data appended successfully".toList,
          isoformat (clock 1)⟩)
  | Except.error e => (out.file, Except.error ("500: ".toList ++ e))

/-! ## The lock context manager `file_lock` (lines 26-47) -/

/-- The observable steps of one `file_lock()` use, in the order the code
performs them. -/
inductive LockEv where
  /-- `lock_fd = open(lock_file, 'w+')` (line 33): creates the lock file. -/
  | openLock : LockEv
  /-- `fcntl.flock(lock_fd, fcntl.LOCK_EX)` (line 37). -/
  | flockEx : LockEv
  /-- `yield` (line 38): the caller's locked body runs here. -/
  | runBody : LockEv
  /-- `fcntl.flock(lock_fd, fcntl.LOCK_UN)` (line 41), in the `finally`. -/
  | flockUn : LockEv
  /-- `lock_fd.close()` (line 42). -/
  | closeFd : LockEv
  /-- `os.remove(lock_file)` succeeded (line 45). -/
  | removeOk : LockEv
  /-- `os.remove(lock_file)` raised `OSError`, swallowed (lines 44-47). -/
  | removeFail : LockEv
deriving DecidableEq

/-- `file_lock` as a context manager wrapped around a body that either
completes or raises (`body` is its outcome): the step trace, and the
overall outcome of the `with file_lock():` block.  `removeFails` injects
an `OSError` into the cleanup `os.remove`.  The `finally:` block runs on
both body outcomes, and a removal failure is swallowed, so the trace shape
and the outcome are as below. -/
def file_lock (body : Except (List Char) Unit) (removeFails : Bool) :
    List LockEv × Except (List Char) Unit :=
  ([LockEv.openLock, LockEv.flockEx, LockEv.runBody, LockEv.flockUn, LockEv.closeFd,
    if removeFails then LockEv.removeFail else LockEv.removeOk],
   body)

/-- Lock-relevant state of the host as seen by one `file_lock` call. -/
structure LockState where
  lockFileExists : Bool
  held : Bool
deriving DecidableEq

/-- Effect of each `file_lock` step on the lock state. -/
def lockStep : LockState → LockEv → LockState
  | s, LockEv.openLock => { s with lockFileExists := true }
  | s, LockEv.flockEx => { s with held := true }
  | s, LockEv.runBody => s
  | s, LockEv.flockUn => { s with held := false }
  | s, LockEv.closeFd => s
  | s, LockEv.removeOk => { s with lockFileExists := false }
  | s, LockEv.removeFail => s

/-- Run a step trace from a starting lock state. -/
def runLock (s : LockState) (evs : List LockEv) : LockState := evs.foldl lockStep s

/-! ## Multi-writer semantics of the lock protocol (for the host-wide
mutual-exclusion invariant)

The state machine below embeds `file_lock`'s operation sequence for
several concurrent writers, with POSIX semantics of the primitives it
uses: `flock` locks attach to an inode reached through an open file
descriptor; `unlink`/`os.remove` only removes the path-to-inode binding,
and an inode stays usable through descriptors already open on it; a later
`open` on the now-unbound path creates a fresh inode.  These semantics are
what `fcntl.flock` and `os.remove` provide on the single host the spec
assumes. -/

/-- State of one writer running `file_lock`. -/
structure ProcState where
  /-- Inode of the lock file this writer has open, if any. -/
  fd : Option Nat
  /-- Whether this writer holds an exclusive `flock` on that inode. -/
  holding : Bool
  /-- Whether this writer is inside the locked body (mutating the log). -/
  inCS : Bool
deriving DecidableEq

/-- Host state: the `data.jsonl.lock` path binding, the flock table, and
three writers (threads or processes; `flock` semantics are the same). -/
structure HostState where
  nextIno : Nat
  /-- Inode currently named by the lock-file path, if the path exists. -/
  pathIno : Option Nat
  /-- Inodes whose exclusive `flock` is currently held by some writer. -/
  lockedInos : List Nat
  pA : ProcState
  pB : ProcState
  pC : ProcState
deriving DecidableEq

/-- The three concurrent writers. -/
inductive Writer where
  | A : Writer
  | B : Writer
  | C : Writer
deriving DecidableEq

/-- The operations `file_lock` performs, now as actions of a named writer. -/
inductive LockAct where
  /-- `open(lock_file, 'w+')`: bind to the current inode of the path, or
  create a fresh inode if the path is absent. -/
  | openL : LockAct
  /-- `fcntl.flock(fd, LOCK_EX)`: enabled only while no one holds an
  exclusive lock on that inode (otherwise the caller blocks). -/
  | flockEx : LockAct
  /-- Enter the locked body (the writer believes it has exclusive access). -/
  | enterCS : LockAct
  /-- Leave the locked body. -/
  | exitCS : LockAct
  /-- `fcntl.flock(fd, LOCK_UN)`. -/
  | flockUn : LockAct
  /-- `lock_fd.close()` (also drops any lock still held on the inode). -/
  | closeL : LockAct
  /-- `os.remove(lock_file)`: unbind the path (enabled when the path exists). -/
  | unlinkL : LockAct
deriving DecidableEq

/-- Writer state accessor. -/
def getP (s : HostState) : Writer → ProcState
  | Writer.A => s.pA
  | Writer.B => s.pB
  | Writer.C => s.pC

/-- Writer state update. -/
def setP (s : HostState) : Writer → ProcState → HostState
  | Writer.A, p => { s with pA := p }
  | Writer.B, p => { s with pB := p }
  | Writer.C, p => { s with pC := p }

/-- One enabled action of one writer; `none` when the action is not
enabled in this state (e.g. `flock LOCK_EX` on a locked inode blocks
instead of running). -/
def lockAct (s : HostState) (w : Writer) (a : LockAct) : Option HostState :=
  let p := getP s w
  match a with
  | LockAct.openL =>
    match p.fd with
    | some _ => none
    | none =>
      match s.pathIno with
      | some i => some (setP s w { p with fd := some i })
      | none =>
          some (setP { s with nextIno := s.nextIno + 1, pathIno := some s.nextIno }
            w { p with fd := some s.nextIno })
  | LockAct.flockEx =>
    match p.fd with
    | none => none
    | some i =>
      if s.lockedInos.contains i then none
      else some (setP { s with lockedInos := i :: s.lockedInos } w { p with holding := true })
  | LockAct.enterCS =>
    if p.holding then some (setP s w { p with inCS := true }) else none
  | LockAct.exitCS =>
    if p.inCS then some (setP s w { p with inCS := false }) else none
  | LockAct.flockUn =>
    match p.fd with
    | none => none
    | some i =>
      if p.holding then
        some (setP { s with lockedInos := s.lockedInos.erase i } w { p with holding := false })
      else none
  | LockAct.closeL =>
    match p.fd with
    | none => none
    | some i =>
      let s1 := if p.holding then { s with lockedInos := s.lockedInos.erase i } else s
      some (setP s1 w { p with fd := none, holding := false })
  | LockAct.unlinkL =>
    match s.pathIno with
    | none => none
    | some _ => some { s with pathIno := none }

/-- Run an interleaving of writer actions; `none` if any step is not
enabled (so a `some` result is a legal execution). -/
def runScript : HostState → List (Writer × LockAct) → Option HostState
  | s, [] => some s
  | s, (w, a) :: rest =>
    match lockAct s w a with
    | some s1 => runScript s1 rest
    | none => none

/-- Fresh host: lock path absent, no locks, three idle writers. -/
def initHost : HostState :=
  ⟨0, none, [], ⟨none, false, false⟩, ⟨none, false, false⟩, ⟨none, false, false⟩⟩

/-- The racy interleaving: writer A completes a full `file_lock` cycle and
removes the lock file (line 45) after unlocking; B had already opened the
old lock-file inode before the removal; C then recreates the lock file as
a fresh inode.  B and C now `flock` different inodes, so both acquisitions
succeed and both enter the locked body. -/
def raceScript : List (Writer × LockAct) :=
  [(Writer.A, LockAct.openL), (Writer.A, LockAct.flockEx), (Writer.A, LockAct.enterCS),
   (Writer.A, LockAct.exitCS), (Writer.B, LockAct.openL), (Writer.A, LockAct.flockUn),
   (Writer.A, LockAct.closeL), (Writer.A, LockAct.unlinkL), (Writer.C, LockAct.openL),
   (Writer.C, LockAct.flockEx), (Writer.C, LockAct.enterCS), (Writer.B, LockAct.flockEx),
   (Writer.B, LockAct.enterCS)]

/-! ## Basic character and digit lemmas -/

theorem digitChar_ne_nl {d : Nat} (h : d < 10) : digitChar d ≠ '\n' := by
  interval_cases d <;> decide

theorem hexChar_ne_nl {d : Nat} (h : d < 16) : hexChar d ≠ '\n' := by
  interval_cases d <;> decide

theorem nl_not_mem_hex4 (n : Nat) : '\n' ∉ hex4 n := by
  intro hm
  simp only [hex4, List.mem_cons, List.not_mem_nil, or_false] at hm
  rcases hm with h | h | h | h <;>
    exact hexChar_ne_nl (Nat.mod_lt _ (by omega)) h.symm

theorem nl_not_mem_escChar (c : Char) : '\n' ∉ escChar c := by
  unfold escChar
  split_ifs with h1 h2 h3 h4 h5 h6 h7 h8 h9
  · decide
  · decide
  · decide
  · decide
  · decide
  · decide
  · decide
  · simp only [List.mem_singleton]
    intro he
    have h10 : c.toNat = 10 := by rw [← he]; rfl
    omega
  · simp [nl_not_mem_hex4]
  · simp [nl_not_mem_hex4]

theorem nl_not_mem_escStr (s : List Char) : '\n' ∉ escStr s := by
  induction s with
  | nil => simp [escStr]
  | cons c s ih => simp [escStr, nl_not_mem_escChar c, ih]

theorem nl_not_mem_dumpsStr (s : List Char) : '\n' ∉ dumpsStr s := by
  simp [dumpsStr, nl_not_mem_escStr s]

theorem nl_not_mem_dumpsNat (n : Nat) : '\n' ∉ dumpsNat n := by
  unfold dumpsNat
  split_ifs with h
  · decide
  · intro hm
    rw [List.mem_reverse, List.mem_map] at hm
    obtain ⟨d, hd, he⟩ := hm
    exact digitChar_ne_nl (Nat.digits_lt_base (by omega) hd) he

theorem nl_not_mem_dumpsInt (n : Int) : '\n' ∉ dumpsInt n := by
  unfold dumpsInt
  split_ifs with h
  · simp only [List.mem_cons]
    push_neg
    exact ⟨by decide, nl_not_mem_dumpsNat _⟩
  · exact nl_not_mem_dumpsNat _

/-! ## A convenient induction principle for the nested inductive `Json` -/

theorem jsonInd {P : Json → Prop}
    (hnull : P Json.null) (hbool : ∀ b, P (Json.bool b)) (hint : ∀ n, P (Json.int n))
    (hstr : ∀ s, P (Json.str s))
    (harr : ∀ xs, (∀ x ∈ xs, P x) → P (Json.arr xs))
    (hobj : ∀ kvs, (∀ k v, (k, v) ∈ kvs → P v) → P (Json.obj kvs)) :
    ∀ e, P e
  | Json.null => hnull
  | Json.bool b => hbool b
  | Json.int n => hint n
  | Json.str s => hstr s
  | Json.arr xs =>
    harr xs (fun x hx => jsonInd hnull hbool hint hstr harr hobj x)
  | Json.obj kvs =>
    hobj kvs (fun k v hkv => jsonInd hnull hbool hint hstr harr hobj v)
termination_by e => sizeOf e
decreasing_by
  · have := List.sizeOf_lt_of_mem hx
    simp only [Json.arr.sizeOf_spec]
    omega
  · have h1 := List.sizeOf_lt_of_mem hkv
    simp only [Prod.mk.sizeOf_spec] at h1
    simp only [Json.obj.sizeOf_spec]
    omega

theorem nl_not_mem_dumpsElems (xs : List Json)
    (h : ∀ x ∈ xs, '\n' ∉ dumpsJson x) : '\n' ∉ dumpsElems xs := by
  induction xs with
  | nil => simp [dumpsElems]
  | cons x xs ih =>
    cases xs with
    | nil => simpa [dumpsElems] using h x (by simp)
    | cons y ys =>
      have hx := h x (by simp)
      have hrest : '\n' ∉ dumpsElems (y :: ys) := ih (fun z hz => h z (by simp at hz ⊢; tauto))
      simp [dumpsElems, hx, hrest]

theorem nl_not_mem_dumpsMembers (kvs : List (List Char × Json))
    (h : ∀ k v, (k, v) ∈ kvs → '\n' ∉ dumpsJson v) : '\n' ∉ dumpsMembers kvs := by
  induction kvs with
  | nil => simp [dumpsMembers]
  | cons kv kvs ih =>
    obtain ⟨k, v⟩ := kv
    cases kvs with
    | nil =>
      have hv := h k v (by simp)
      simp [dumpsMembers, nl_not_mem_dumpsStr k, hv]
    | cons kv2 kvs2 =>
      have hv := h k v (by simp)
      have hrest : '\n' ∉ dumpsMembers (kv2 :: kvs2) :=
        ih (fun k2 v2 hk2 => h k2 v2 (by simp [hk2]))
      simp [dumpsMembers, nl_not_mem_dumpsStr k, hv, hrest]

theorem nl_not_mem_dumpsJson (e : Json) : '\n' ∉ dumpsJson e := by
  induction e using jsonInd with
  | hnull => decide
  | hbool b => cases b <;> decide
  | hint n => simpa [dumpsJson] using nl_not_mem_dumpsInt n
  | hstr s => simpa [dumpsJson] using nl_not_mem_dumpsStr s
  | harr xs ih => simp [dumpsJson, nl_not_mem_dumpsElems xs ih]
  | hobj kvs ih => simp [dumpsJson, nl_not_mem_dumpsMembers kvs ih]

theorem entryLine_count_nl (now : PyDateTime) (data : Json) :
    (entryLine now data).count '\n' = 1 := by
  simp [entryLine, List.count_append, List.count_eq_zero.mpr (nl_not_mem_dumpsJson _)]

/-! ## Behaviour of the retry loop -/

/-- Complete case analysis of one `append_to_jsonl` call under the
fault-injection model: either some attempt's body completes (the first
such attempt appends exactly the entry line and the call returns), or all
`MAX_RETRIES` bodies raise and the final `HTTPException` surfaces. -/
theorem append_cases (errs : Nat → Option (List Char)) (now : PyDateTime)
    (data : Json) (f : Option (List Char)) :
    (append_to_jsonl errs now data f =
        ⟨some ((f.getD []) ++ entryLine now data), Except.ok (),
          (append_to_jsonl errs now data f).attempts⟩
      ∧ errs ((append_to_jsonl errs now data f).attempts - 1) = none
      ∧ 1 ≤ (append_to_jsonl errs now data f).attempts
      ∧ (append_to_jsonl errs now data f).attempts ≤ MAX_RETRIES) ∨
    ((∀ i, i < MAX_RETRIES → errs i ≠ none) ∧
      append_to_jsonl errs now data f =
        ⟨f, Except.error (failDetail MAX_RETRIES ((errs (MAX_RETRIES - 1)).getD [])),
          MAX_RETRIES⟩) := by
  rcases h0 : errs 0 with _ | e0
  · left
    refine ⟨?_, ?_, ?_, ?_⟩ <;>
      simp [append_to_jsonl, appendGo, MAX_RETRIES, h0, write_with_lock]
  · rcases h1 : errs 1 with _ | e1
    · left
      refine ⟨?_, ?_, ?_, ?_⟩ <;>
        simp [append_to_jsonl, appendGo, MAX_RETRIES, h0, h1, write_with_lock]
    · rcases h2 : errs 2 with _ | e2
      · left
        refine ⟨?_, ?_, ?_, ?_⟩ <;>
          simp [append_to_jsonl, appendGo, MAX_RETRIES, h0, h1, h2, write_with_lock]
      · right
        constructor
        · intro i hi
          have hi3 : i < 3 := hi
          interval_cases i <;> simp [h0, h1, h2]
        · simp [append_to_jsonl, appendGo, MAX_RETRIES, h0, h1, h2]

/-- C3: if the write-and-sync step raises on every one of the `MAX_RETRIES`
attempts, `append_to_jsonl` makes exactly `MAX_RETRIES` attempts, persists
nothing (the file is unchanged), and surfaces the single final failure
whose detail string carries the attempt count `MAX_RETRIES` and the last
underlying error's text; nothing else escapes the retry loop. -/
theorem C3_all_attempts_fail (errs : Nat → Option (List Char))
    (es : Nat → List Char) (now : PyDateTime) (data : Json) (f : Option (List Char))
    (h : ∀ i, i < MAX_RETRIES → errs i = some (es i)) :
    append_to_jsonl errs now data f =
      ⟨f, Except.error (failDetail MAX_RETRIES (es (MAX_RETRIES - 1))), MAX_RETRIES⟩ := by
  have h0 := h 0 (by decide)
  have h1 := h 1 (by decide)
  have h2 := h 2 (by decide)
  simp [append_to_jsonl, appendGo, MAX_RETRIES, h0, h1, h2]

theorem C3_all_attempts_fail_witness :
    (∀ i, i < MAX_RETRIES → (fun _ => some ['e']) i = some ((fun _ => ['e']) i)) ∧
    append_to_jsonl (fun _ => some ['e']) ⟨2024, 1, 1, 0, 0, 0, 0⟩ Json.null none =
      ⟨none, Except.error (failDetail MAX_RETRIES ['e']), MAX_RETRIES⟩ :=
  ⟨fun _ _ => rfl,
    C3_all_attempts_fail (fun _ => some ['e']) (fun _ => ['e'])
      ⟨2024, 1, 1, 0, 0, 0, 0⟩ Json.null none (fun _ _ => rfl)⟩

/-- C4: if the write-and-sync step raises on each of the first
`MAX_RETRIES - 1` attempts and completes on the final one, the call
succeeds after exactly `MAX_RETRIES` attempts and exactly one Entry line
is appended to the log file (the newline count grows by one). -/
theorem C4_last_attempt_succeeds (errs : Nat → Option (List Char))
    (es : Nat → List Char) (now : PyDateTime) (data : Json) (f : Option (List Char))
    (h : ∀ i, i < MAX_RETRIES - 1 → errs i = some (es i))
    (hl : errs (MAX_RETRIES - 1) = none) :
    append_to_jsonl errs now data f =
      ⟨some ((f.getD []) ++ entryLine now data), Except.ok (), MAX_RETRIES⟩
    ∧ ((f.getD []) ++ entryLine now data).count '\n' = (f.getD []).count '\n' + 1 := by
  have h0 := h 0 (by decide)
  have h1 := h 1 (by decide)
  have hl2 : errs 2 = none := hl
  constructor
  · simp [append_to_jsonl, appendGo, MAX_RETRIES, h0, h1, hl2, write_with_lock]
  · rw [List.count_append, entryLine_count_nl]

theorem C4_last_attempt_succeeds_witness :
    (∀ i, i < MAX_RETRIES - 1 → (fun i => if i = 2 then none else some ['x']) i
        = some ((fun _ => ['x']) i)) ∧
    (fun i => if i = 2 then none else some ['x']) (MAX_RETRIES - 1) = none ∧
    (append_to_jsonl (fun i => if i = 2 then none else some ['x'])
        ⟨2024, 1, 1, 0, 0, 0, 0⟩ Json.null none =
      ⟨some ((Option.none.getD []) ++ entryLine ⟨2024, 1, 1, 0, 0, 0, 0⟩ Json.null),
        Except.ok (), MAX_RETRIES⟩
    ∧ ((Option.none.getD []) ++ entryLine ⟨2024, 1, 1, 0, 0, 0, 0⟩ Json.null).count '\n'
        = (Option.none.getD [] : List Char).count '\n' + 1) :=
  ⟨fun i hi => by
      have hi2 : i < 2 := hi
      interval_cases i <;> rfl,
    rfl,
    C4_last_attempt_succeeds (fun i => if i = 2 then none else some ['x']) (fun _ => ['x'])
      ⟨2024, 1, 1, 0, 0, 0, 0⟩ Json.null none
      (fun i hi => by
        have hi2 : i < 2 := hi
        interval_cases i <;> rfl) rfl⟩

/-- C8: if the log file does not exist before the call, a successful
append creates it and leaves a file containing exactly one line. -/
theorem C8_first_append_creates_file (errs : Nat → Option (List Char))
    (now : PyDateTime) (data : Json)
    (hs : (append_to_jsonl errs now data none).result = Except.ok ()) :
    (append_to_jsonl errs now data none).file = some (entryLine now data)
    ∧ (entryLine now data).count '\n' = 1 := by
  refine ⟨?_, entryLine_count_nl now data⟩
  rcases append_cases errs now data none with ⟨heq, -⟩ | ⟨-, heq⟩
  · rw [heq]
    simp
  · rw [heq] at hs
    simp at hs

theorem C8_first_append_creates_file_witness :
    (append_to_jsonl (fun _ => none) ⟨2024, 1, 1, 0, 0, 0, 0⟩ Json.null none).result
      = Except.ok () ∧
    ((append_to_jsonl (fun _ => none) ⟨2024, 1, 1, 0, 0, 0, 0⟩ Json.null none).file
        = some (entryLine ⟨2024, 1, 1, 0, 0, 0, 0⟩ Json.null)
      ∧ (entryLine ⟨2024, 1, 1, 0, 0, 0, 0⟩ Json.null).count '\n' = 1) :=
  ⟨rfl, C8_first_append_creates_file (fun _ => none) ⟨2024, 1, 1, 0, 0, 0, 0⟩ Json.null rfl⟩

/-- C9: append never rewrites or truncates existing content.  Whatever the
error schedule, the resulting file is either exactly the old one (failed
call) or the old content with the single entry line appended at the end;
in particular any previous content stays a prefix of the new content. -/
theorem C9_append_only_frame (errs : Nat → Option (List Char)) (now : PyDateTime)
    (data : Json) (f : Option (List Char)) (old : List Char) :
    ((append_to_jsonl errs now data f).file = f ∨
      (append_to_jsonl errs now data f).file = some ((f.getD []) ++ entryLine now data))
    ∧ ∃ t, (append_to_jsonl errs now data (some old)).file = some (old ++ t) := by
  constructor
  · rcases append_cases errs now data f with ⟨heq, -⟩ | ⟨-, heq⟩
    · right
      rw [heq]
    · left
      rw [heq]
  · rcases append_cases errs now data (some old) with ⟨heq, -⟩ | ⟨-, heq⟩
    · exact ⟨entryLine now data, by rw [heq]; simp⟩
    · exact ⟨[], by rw [heq]; simp⟩

/-! ## Round trip of `isoformat` through the ISO-8601 parser -/

theorem digVal_digitChar {d : Nat} (h : d < 10) : digVal (digitChar d) = some d := by
  interval_cases d <;> decide

theorem parse2_pad2 {n : Nat} (h : n < 100) (r : List Char) :
    parse2 (pad2 n ++ r) = some (n, r) := by
  have h1 : n / 10 % 10 < 10 := Nat.mod_lt _ (by omega)
  have h2 : n % 10 < 10 := Nat.mod_lt _ (by omega)
  simp only [pad2, List.cons_append, List.nil_append, parse2,
    digVal_digitChar h1, digVal_digitChar h2]
  have : 10 * (n / 10 % 10) + n % 10 = n := by omega
  rw [this]

theorem expectChar_cons (c : Char) (r : List Char) : expectChar c (c :: r) = some r := by
  simp [expectChar]

theorem parse4_pad4 {n : Nat} (h : n < 10000) (r : List Char) :
    parse4 (pad4 n ++ r) = some (n, r) := by
  have e : pad4 n ++ r = pad2 (n / 100) ++ (pad2 (n % 100) ++ r) := by
    simp [pad4, List.append_assoc]
  rw [parse4, e, parse2_pad2 (by omega)]
  dsimp only
  rw [parse2_pad2 (by omega)]
  dsimp only
  have hv : 100 * (n / 100) + n % 100 = n := by omega
  rw [hv]

theorem parse6_pad6 {n : Nat} (h : n < 1000000) (r : List Char) :
    parse6 (pad6 n ++ r) = some (n, r) := by
  have e : pad6 n ++ r =
      pad2 (n / 10000) ++ (pad2 (n / 100 % 100) ++ (pad2 (n % 100) ++ r)) := by
    simp [pad6, List.append_assoc]
  rw [parse6, e, parse2_pad2 (by omega)]
  dsimp only
  rw [parse2_pad2 (by omega)]
  dsimp only
  rw [parse2_pad2 (by omega)]
  dsimp only
  have hv : 10000 * (n / 10000) + 100 * (n / 100 % 100) + n % 100 = n := by omega
  rw [hv]

theorem parseIso_isoformat (d : PyDateTime) (h : validDT d = true) :
    parseIso (isoformat d) = some d := by
  have hb : d.year ≤ 9999 ∧ d.month ≤ 12 ∧ d.day ≤ 31 ∧ d.hour ≤ 23 ∧
      d.minute ≤ 59 ∧ d.second ≤ 59 ∧ d.microsecond ≤ 999999 := by
    simp only [validDT, Bool.and_eq_true, decide_eq_true_eq] at h
    have hm : monthLen d.year d.month ≤ 31 := by
      unfold monthLen
      split_ifs <;> simp_all <;> omega
    omega
  obtain ⟨hy, hmo, hda, hh, hmi, hse, hus⟩ := hb
  have hd0 : (⟨d.year, d.month, d.day, d.hour, d.minute, d.second, d.microsecond⟩
      : PyDateTime) = d := by
    cases d
    rfl
  by_cases hms : d.microsecond = 0
  · have hiso : isoformat d =
        pad4 d.year ++ (('-' :: pad2 d.month) ++ (('-' :: pad2 d.day) ++
          (('T' :: pad2 d.hour) ++ ((':' :: pad2 d.minute) ++
            (':' :: (pad2 d.second ++ ([] : List Char))))))) := by
      simp [isoformat, hms]
    have hd : (⟨d.year, d.month, d.day, d.hour, d.minute, d.second, 0⟩ : PyDateTime) = d := by
      rw [← hms]
    rw [parseIso, hiso]
    simp only [List.cons_append, List.append_assoc, expectChar_cons,
      parse4_pad4 (show d.year < 10000 by omega),
      parse2_pad2 (show d.month < 100 by omega),
      parse2_pad2 (show d.day < 100 by omega),
      parse2_pad2 (show d.hour < 100 by omega),
      parse2_pad2 (show d.minute < 100 by omega),
      parse2_pad2 (show d.second < 100 by omega)]
    rw [hd]
    simp [h]
  · have hiso : isoformat d =
        pad4 d.year ++ (('-' :: pad2 d.month) ++ (('-' :: pad2 d.day) ++
          (('T' :: pad2 d.hour) ++ ((':' :: pad2 d.minute) ++
            (':' :: (pad2 d.second ++ ('.' :: (pad6 d.microsecond ++ ([] : List Char))))))))) := by
      simp [isoformat, hms, List.append_assoc]
    rw [parseIso, hiso]
    simp only [List.cons_append, List.append_assoc, expectChar_cons,
      parse4_pad4 (show d.year < 10000 by omega),
      parse2_pad2 (show d.month < 100 by omega),
      parse2_pad2 (show d.day < 100 by omega),
      parse2_pad2 (show d.hour < 100 by omega),
      parse2_pad2 (show d.minute < 100 by omega),
      parse2_pad2 (show d.second < 100 by omega),
      parse6_pad6 (show d.microsecond < 1000000 by omega)]
    rw [hd0]
    simp [h, hms]

/-- C6: every persisted Entry's timestamp is the ISO-8601 `isoformat`
rendering of the captured UTC instant (naive UTC, as `datetime.utcnow()`
yields), and it parses back to exactly that instant at microsecond
resolution: no captured time value loses its microsecond field. -/
theorem C6_persisted_timestamp_iso (errs : Nat → Option (List Char)) (now : PyDateTime)
    (data : Json) (f : Option (List Char)) (hv : validDT now = true)
    (hs : (append_to_jsonl errs now data f).result = Except.ok ()) :
    (append_to_jsonl errs now data f).file
      = some ((f.getD []) ++ dumpsJson (entryJson (isoformat now) data) ++ ['\n'])
    ∧ parseIso (isoformat now) = some now := by
  refine ⟨?_, parseIso_isoformat now hv⟩
  rcases append_cases errs now data f with ⟨heq, -⟩ | ⟨-, heq⟩
  · rw [heq]
    simp [entryLine, List.append_assoc]
  · rw [heq] at hs
    simp at hs

theorem C6_persisted_timestamp_iso_witness :
    validDT ⟨2024, 5, 17, 12, 30, 45, 123456⟩ = true ∧
    (append_to_jsonl (fun _ => none) ⟨2024, 5, 17, 12, 30, 45, 123456⟩ Json.null none).result
      = Except.ok () ∧
    ((append_to_jsonl (fun _ => none) ⟨2024, 5, 17, 12, 30, 45, 123456⟩ Json.null none).file
        = some ((Option.none.getD []) ++
            dumpsJson (entryJson (isoformat ⟨2024, 5, 17, 12, 30, 45, 123456⟩) Json.null) ++ ['\n'])
      ∧ parseIso (isoformat ⟨2024, 5, 17, 12, 30, 45, 123456⟩)
          = some ⟨2024, 5, 17, 12, 30, 45, 123456⟩) :=
  ⟨by decide, rfl,
    C6_persisted_timestamp_iso (fun _ => none) ⟨2024, 5, 17, 12, 30, 45, 123456⟩ Json.null none
      (by decide) rfl⟩

/-! ## Round trip of the string escaper through the string parser -/

theorem hexVal_hexChar {d : Nat} (h : d < 16) : hexVal (hexChar d) = some d := by
  interval_cases d <;> decide

theorem char_toNat_valid (c : Char) :
    c.toNat < 55296 ∨ (57343 < c.toNat ∧ c.toNat < 1114112) := by
  rcases c.valid with h | ⟨h1, h2⟩
  · exact Or.inl (UInt32.toNat_lt_of_lt (by decide) h)
  · exact Or.inr ⟨UInt32.lt_toNat_of_lt (by decide) h1, UInt32.toNat_lt_of_lt (by decide) h2⟩

theorem hexQuad_digits {n : Nat} (h : n < 65536) :
    hexQuad (hexChar (n / 4096 % 16)) (hexChar (n / 256 % 16)) (hexChar (n / 16 % 16))
      (hexChar (n % 16)) = some n := by
  have e1 : n / 4096 % 16 < 16 := Nat.mod_lt _ (by omega)
  have e2 : n / 256 % 16 < 16 := Nat.mod_lt _ (by omega)
  have e3 : n / 16 % 16 < 16 := Nat.mod_lt _ (by omega)
  have e4 : n % 16 < 16 := Nat.mod_lt _ (by omega)
  have hrec : n / 4096 % 16 * 4096 + n / 256 % 16 * 256 + n / 16 % 16 * 16 + n % 16 = n := by
    omega
  unfold hexQuad
  rw [hexVal_hexChar e1, hexVal_hexChar e2, hexVal_hexChar e3, hexVal_hexChar e4]
  dsimp only
  rw [hrec]

theorem parseUnicode_bmp (c : Char) (hlt : c.toNat < 65536) (X : List Char) :
    parseUnicode (some c.toNat) X = consFst c (parseStringRest X) := by
  have hns : ¬(55296 ≤ c.toNat ∧ c.toNat < 56320) := by
    rcases char_toNat_valid c with h | ⟨h1, h2⟩ <;> omega
  have hns2 : ¬(56320 ≤ c.toNat ∧ c.toNat < 57344) := by
    rcases char_toNat_valid c with h | ⟨h1, h2⟩ <;> omega
  rw [parseUnicode.eq_def]
  dsimp only
  rw [if_neg hns, if_neg hns2, Char.ofNat_toNat]

theorem parseUnicode_astral (c : Char) (hge : 65536 ≤ c.toNat) (X : List Char) :
    parseUnicode (some (55296 + (c.toNat - 65536) / 1024))
      ('\\' :: 'u' :: hexChar ((56320 + (c.toNat - 65536) % 1024) / 4096 % 16) ::
        hexChar ((56320 + (c.toNat - 65536) % 1024) / 256 % 16) ::
        hexChar ((56320 + (c.toNat - 65536) % 1024) / 16 % 16) ::
        hexChar ((56320 + (c.toNat - 65536) % 1024) % 16) :: X)
      = consFst c (parseStringRest X) := by
  have hub : c.toNat < 1114112 := by
    rcases char_toNat_valid c with h | ⟨h1, h2⟩ <;> omega
  have hw : (c.toNat - 65536) % 1024 < 1024 := Nat.mod_lt _ (by omega)
  have hfin : (55296 + (c.toNat - 65536) / 1024 - 55296) * 1024 +
      (56320 + (c.toNat - 65536) % 1024 - 56320) + 65536 = c.toNat := by
    omega
  rw [parseUnicode.eq_def]
  dsimp only
  rw [if_pos (show 55296 ≤ 55296 + (c.toNat - 65536) / 1024 ∧
    55296 + (c.toNat - 65536) / 1024 < 56320 by omega)]
  rw [if_pos (⟨rfl, rfl⟩ : ('\\' : Char) = '\\' ∧ ('u' : Char) = 'u')]
  rw [hexQuad_digits (show 56320 + (c.toNat - 65536) % 1024 < 65536 by omega)]
  dsimp only
  rw [if_pos (show 56320 ≤ 56320 + (c.toNat - 65536) % 1024 ∧
    56320 + (c.toNat - 65536) % 1024 < 57344 by omega)]
  rw [hfin, Char.ofNat_toNat]

theorem parseStringRest_escChar (c : Char) (X : List Char) :
    parseStringRest (escChar c ++ X) = consFst c (parseStringRest X) := by
  unfold escChar
  split_ifs with h1 h2 h3 h4 h5 h6 h7 h8 h9
  · subst h1
    simp [parseStringRest, parseEscape.eq_def]
  · subst h2
    simp [parseStringRest, parseEscape.eq_def]
  · have hc : Char.ofNat 8 = c := by rw [← h3, Char.ofNat_toNat]
    simp [parseStringRest, parseEscape.eq_def]
    rw [hc]
  · have hc : Char.ofNat 9 = c := by rw [← h4, Char.ofNat_toNat]
    simp [parseStringRest, parseEscape.eq_def]
    rw [hc]
  · have hc : Char.ofNat 10 = c := by rw [← h5, Char.ofNat_toNat]
    simp [parseStringRest, parseEscape.eq_def]
    rw [hc]
  · have hc : Char.ofNat 12 = c := by rw [← h6, Char.ofNat_toNat]
    simp [parseStringRest, parseEscape.eq_def]
    rw [hc]
  · have hc : Char.ofNat 13 = c := by rw [← h7, Char.ofNat_toNat]
    simp [parseStringRest, parseEscape.eq_def]
    rw [hc]
  · simp [parseStringRest, h1, h2]
  · simp only [List.cons_append, List.nil_append, hex4]
    rw [parseStringRest, if_neg (by decide : ¬('\\' : Char) = '"'), if_pos rfl]
    rw [parseEscape.eq_def]
    dsimp only
    rw [if_neg (by decide : ¬('u' : Char) = '"'), if_neg (by decide : ¬('u' : Char) = '\\'),
      if_neg (by decide : ¬('u' : Char) = '/'), if_neg (by decide : ¬('u' : Char) = 'b'),
      if_neg (by decide : ¬('u' : Char) = 'f'), if_neg (by decide : ¬('u' : Char) = 'n'),
      if_neg (by decide : ¬('u' : Char) = 'r'), if_neg (by decide : ¬('u' : Char) = 't'),
      if_pos rfl]
    rw [hexQuad_digits h9]
    exact parseUnicode_bmp c h9 X
  · have hge : 65536 ≤ c.toNat := by omega
    have hhi : 55296 + (c.toNat - 65536) / 1024 < 65536 := by
      have hub : c.toNat < 1114112 := by
        rcases char_toNat_valid c with h | ⟨ha, hb⟩ <;> omega
      omega
    simp only [List.cons_append, List.nil_append, List.append_assoc, hex4]
    rw [parseStringRest, if_neg (by decide : ¬('\\' : Char) = '"'), if_pos rfl]
    rw [parseEscape.eq_def]
    dsimp only
    rw [if_neg (by decide : ¬('u' : Char) = '"'), if_neg (by decide : ¬('u' : Char) = '\\'),
      if_neg (by decide : ¬('u' : Char) = '/'), if_neg (by decide : ¬('u' : Char) = 'b'),
      if_neg (by decide : ¬('u' : Char) = 'f'), if_neg (by decide : ¬('u' : Char) = 'n'),
      if_neg (by decide : ¬('u' : Char) = 'r'), if_neg (by decide : ¬('u' : Char) = 't'),
      if_pos rfl]
    rw [hexQuad_digits hhi]
    exact parseUnicode_astral c hge X

theorem parseStringRest_escStr (s : List Char) (rest : List Char) :
    parseStringRest (escStr s ++ '"' :: rest) = some (s, rest) := by
  induction s with
  | nil => simp [escStr, parseStringRest]
  | cons c s ih =>
    rw [escStr, List.append_assoc, parseStringRest_escChar, ih]
    rfl

/-! ## Round trip of numbers through the number parser -/

theorem notDigitStart_rb (r : List Char) : notDigitStart (']' :: r) = true := by
  simp only [notDigitStart]
  decide

theorem notDigitStart_cm (r : List Char) : notDigitStart (',' :: r) = true := by
  simp only [notDigitStart]
  decide

theorem notDigitStart_br (r : List Char) : notDigitStart ('\x7d' :: r) = true := by
  simp only [notDigitStart]
  decide

theorem parseDigitsAux_stop (acc : Nat) (r : List Char) (hr : notDigitStart r = true) :
    parseDigitsAux acc r = (acc, r) := by
  cases r with
  | nil => rfl
  | cons c r =>
    have hd : digVal c = none := by
      simpa [notDigitStart, Option.isNone_iff_eq_none] using hr
    simp [parseDigitsAux, hd]

theorem parseDigitsAux_run (ds : List Nat) (acc : Nat) (rest : List Char)
    (hds : ∀ d ∈ ds, d < 10) (hr : notDigitStart rest = true) :
    parseDigitsAux acc (ds.map digitChar ++ rest)
      = (acc * 10 ^ ds.length + Nat.ofDigits 10 ds.reverse, rest) := by
  induction ds generalizing acc with
  | nil => simpa [Nat.ofDigits] using parseDigitsAux_stop acc rest hr
  | cons d ds ih =>
    have hd : d < 10 := hds d (by simp)
    simp only [List.map_cons, List.cons_append, parseDigitsAux, digVal_digitChar hd,
      List.append_eq]
    rw [ih (10 * acc + d) (fun x hx => hds x (by simp [hx]))]
    simp only [List.length_cons, List.reverse_cons, Nat.ofDigits_append,
      Nat.ofDigits_singleton, List.length_reverse]
    have heq : (10 * acc + d) * 10 ^ ds.length + Nat.ofDigits 10 ds.reverse
        = acc * 10 ^ (ds.length + 1) + (Nat.ofDigits 10 ds.reverse + 10 ^ ds.length * d) := by
      ring
    rw [heq]

theorem parseNumber_dumpsNat (n : Nat) (rest : List Char) (hr : notDigitStart rest = true) :
    parseNumber (dumpsNat n ++ rest) = some (n, rest) := by
  by_cases h0 : n = 0
  · subst h0
    have h00 : digVal (digitChar 0) = some 0 := digVal_digitChar (by omega)
    rw [show dumpsNat 0 = [digitChar 0] by simp [dumpsNat]]
    simp only [List.cons_append, List.nil_append, parseNumber, h00]
    rw [parseDigitsAux_stop 0 rest hr]
  · have hrev : (Nat.digits 10 n).reverse ≠ [] := by
      simpa using Nat.digits_ne_nil_iff_ne_zero.mpr h0
    obtain ⟨d, ds, hds⟩ := List.exists_cons_of_ne_nil hrev
    have hmem : ∀ x ∈ d :: ds, x < 10 := by
      rw [← hds]
      intro x hx
      exact Nat.digits_lt_base (by omega) (List.mem_reverse.mp hx)
    have hd : d < 10 := hmem d (by simp)
    have hdump : dumpsNat n = digitChar d :: ds.map digitChar := by
      rw [dumpsNat, if_neg h0, ← List.map_reverse, hds, List.map_cons]
    rw [hdump]
    simp only [List.cons_append, parseNumber, digVal_digitChar hd]
    rw [parseDigitsAux_run ds d rest (fun x hx => hmem x (by simp [hx])) hr]
    have hdig : Nat.digits 10 n = ds.reverse ++ [d] := by
      have h2 := congrArg List.reverse hds
      rwa [List.reverse_reverse, List.reverse_cons] at h2
    have hn : d * 10 ^ ds.length + Nat.ofDigits 10 ds.reverse = n := by
      conv_rhs => rw [← Nat.ofDigits_digits 10 n, hdig]
      rw [Nat.ofDigits_append, Nat.ofDigits_singleton, List.length_reverse]
      ring
    rw [hn]

theorem digitChar_not_special {d : Nat} (h : d < 10) :
    digitChar d ≠ 'n' ∧ digitChar d ≠ 't' ∧ digitChar d ≠ 'f' ∧ digitChar d ≠ '"' ∧
      digitChar d ≠ '[' ∧ digitChar d ≠ '\x7b' ∧ digitChar d ≠ '-' ∧ digitChar d ≠ ']' ∧
      digitChar d ≠ '\x7d' := by
  interval_cases d <;> decide

theorem dumpsNat_head (n : Nat) : ∃ d t, dumpsNat n = digitChar d :: t ∧ d < 10 := by
  by_cases h0 : n = 0
  · exact ⟨0, [], by simp [dumpsNat, h0], by omega⟩
  · have hrev : (Nat.digits 10 n).reverse ≠ [] := by
      simpa using Nat.digits_ne_nil_iff_ne_zero.mpr h0
    obtain ⟨d, ds, hds⟩ := List.exists_cons_of_ne_nil hrev
    refine ⟨d, ds.map digitChar, ?_, ?_⟩
    · rw [dumpsNat, if_neg h0, ← List.map_reverse, hds, List.map_cons]
    · have hm : d ∈ Nat.digits 10 n := List.mem_reverse.mp (hds ▸ List.mem_cons_self d ds)
      exact Nat.digits_lt_base (by omega) hm

/-! ## Round trip of whole JSON values through the parser -/

theorem parseJson_dumpsInt (n : Int) (fuel : Nat) (rest : List Char)
    (hr : notDigitStart rest = true) :
    parseJson (fuel + 1) (dumpsInt n ++ rest) = some (Json.int n, rest) := by
  by_cases hneg : n < 0
  · rw [dumpsInt, if_pos hneg]
    simp only [List.cons_append]
    rw [parseJson.eq_def]
    dsimp only
    rw [if_neg (by decide : ¬('-' : Char) = 'n'), if_neg (by decide : ¬('-' : Char) = 't'),
      if_neg (by decide : ¬('-' : Char) = 'f'), if_neg (by decide : ¬('-' : Char) = '"'),
      if_neg (by decide : ¬('-' : Char) = '['), if_neg (by decide : ¬('-' : Char) = '\x7b'),
      if_pos rfl]
    rw [parseNumber_dumpsNat n.natAbs rest hr]
    dsimp only
    have hcast : -((n.natAbs : Nat) : Int) = n := by omega
    rw [hcast]
  · rw [dumpsInt, if_neg hneg]
    obtain ⟨d, t, hdt, hd⟩ := dumpsNat_head n.natAbs
    rw [hdt]
    simp only [List.cons_append]
    rw [parseJson.eq_def]
    dsimp only
    obtain ⟨s1, s2, s3, s4, s5, s6, s7, s8, s9⟩ := digitChar_not_special hd
    rw [if_neg s1, if_neg s2, if_neg s3, if_neg s4, if_neg s5, if_neg s6, if_neg s7]
    rw [show digitChar d :: (t ++ rest) = dumpsNat n.natAbs ++ rest by
      rw [hdt, List.cons_append]]
    rw [parseNumber_dumpsNat n.natAbs rest hr]
    dsimp only
    have hcast : ((n.natAbs : Nat) : Int) = n := by omega
    rw [hcast]

theorem parseJson_dumpsStr (s : List Char) (fuel : Nat) (rest : List Char) :
    parseJson (fuel + 1) (dumpsStr s ++ rest) = some (Json.str s, rest) := by
  have hshape : dumpsStr s ++ rest = '"' :: (escStr s ++ '"' :: rest) := by
    simp [dumpsStr, List.append_assoc]
  rw [hshape, parseJson.eq_def]
  dsimp only
  rw [if_neg (by decide : ¬('"' : Char) = 'n'), if_neg (by decide : ¬('"' : Char) = 't'),
    if_neg (by decide : ¬('"' : Char) = 'f'), if_pos rfl]
  rw [parseStringRest_escStr]

theorem dumpsJson_head_ne (e : Json) : ∃ c t, dumpsJson e = c :: t ∧ c ≠ ']' ∧ c ≠ '\x7d' := by
  cases e with
  | null => exact ⟨'n', ['u', 'l', 'l'], by simp [dumpsJson], by decide, by decide⟩
  | bool b =>
    cases b with
    | false => exact ⟨'f', ['a', 'l', 's', 'e'], by simp [dumpsJson], by decide, by decide⟩
    | true => exact ⟨'t', ['r', 'u', 'e'], by simp [dumpsJson], by decide, by decide⟩
  | int n =>
    by_cases hneg : n < 0
    · exact ⟨'-', dumpsNat n.natAbs, by simp [dumpsJson, dumpsInt, hneg], by decide, by decide⟩
    · obtain ⟨d, t, hdt, hd⟩ := dumpsNat_head n.natAbs
      obtain ⟨-, -, -, -, -, -, -, s8, s9⟩ := digitChar_not_special hd
      exact ⟨digitChar d, t, by simp [dumpsJson, dumpsInt, hneg, hdt], s8, s9⟩
  | str s => exact ⟨'"', escStr s ++ ['"'], by simp [dumpsJson, dumpsStr], by decide, by decide⟩
  | arr xs => exact ⟨'[', dumpsElems xs ++ [']'], by simp [dumpsJson], by decide, by decide⟩
  | obj kvs =>
    exact ⟨'\x7b', dumpsMembers kvs ++ ['\x7d'], by simp [dumpsJson], by decide, by decide⟩


theorem parseElems_dumps : ∀ (xs : List Json), (∀ x ∈ xs, RTgood x) →
    ∀ fuel rest, needE xs ≤ fuel →
      parseElems fuel (dumpsElems xs ++ ']' :: rest) = some (xs, rest) := by
  intro xs
  induction xs with
  | nil =>
    intro hxs fuel rest hf
    cases fuel with
    | zero => simp [needE] at hf
    | succ f =>
      rw [show dumpsElems [] ++ ']' :: rest = ']' :: rest by simp [dumpsElems]]
      rw [parseElems.eq_def]
      dsimp only
      rw [if_pos rfl]
  | cons x xs ih =>
    intro hxs fuel rest hf
    cases fuel with
    | zero => rcases xs with _ | ⟨y, ys⟩ <;> simp [needE] at hf
    | succ f =>
      obtain ⟨c, t, hct, hcne, -⟩ := dumpsJson_head_ne x
      have hx := hxs x (by simp)
      cases xs with
      | nil =>
        have hfx : needJ x ≤ f := by
          simp [needE] at hf
          omega
        rw [show dumpsElems [x] ++ ']' :: rest = c :: (t ++ ']' :: rest) by
          simp [dumpsElems, hct]]
        rw [parseElems.eq_def]
        dsimp only
        rw [if_neg hcne]
        rw [show c :: (t ++ ']' :: rest) = dumpsJson x ++ ']' :: rest by
          rw [hct, List.cons_append]]
        rw [hx f (']' :: rest) hfx (notDigitStart_rb rest)]
        rfl
      | cons y ys =>
        have hfx : needJ x ≤ f := by
          simp [needE] at hf
          omega
        have hfe : needE (y :: ys) ≤ f := by
          simp [needE] at hf
          omega
        rw [show dumpsElems (x :: y :: ys) ++ ']' :: rest
            = c :: (t ++ (',' :: ' ' :: (dumpsElems (y :: ys) ++ ']' :: rest))) by
          simp [dumpsElems, hct, List.append_assoc]]
        rw [parseElems.eq_def]
        dsimp only
        rw [if_neg hcne]
        rw [show c :: (t ++ (',' :: ' ' :: (dumpsElems (y :: ys) ++ ']' :: rest)))
            = dumpsJson x ++ (',' :: ' ' :: (dumpsElems (y :: ys) ++ ']' :: rest)) by
          rw [hct, List.cons_append]]
        rw [hx f (',' :: ' ' :: (dumpsElems (y :: ys) ++ ']' :: rest)) hfx
          (notDigitStart_cm _)]
        have hih := ih (fun z hz => hxs z (by simp [hz])) f rest hfe
        simp [hih]

theorem parseMembers_dumps : ∀ (kvs : List (List Char × Json)),
    (∀ k v, (k, v) ∈ kvs → RTgood v) →
    ∀ fuel rest, needM kvs ≤ fuel →
      parseMembers fuel (dumpsMembers kvs ++ '\x7d' :: rest) = some (kvs, rest) := by
  intro kvs
  induction kvs with
  | nil =>
    intro hks fuel rest hf
    cases fuel with
    | zero => simp [needM] at hf
    | succ f =>
      rw [show dumpsMembers [] ++ '\x7d' :: rest = '\x7d' :: rest by simp [dumpsMembers]]
      rw [parseMembers.eq_def]
      dsimp only
      rw [if_pos rfl]
  | cons kv kvs ih =>
    obtain ⟨k, v⟩ := kv
    intro hks fuel rest hf
    cases fuel with
    | zero => rcases kvs with _ | ⟨m, kvs2⟩ <;> simp [needM] at hf
    | succ f =>
      have hv := hks k v (by simp)
      cases kvs with
      | nil =>
        have hfv : needJ v ≤ f := by
          simp [needM] at hf
          omega
        rw [show dumpsMembers [(k, v)] ++ '\x7d' :: rest
            = '"' :: (escStr k ++ '"' :: (':' :: ' ' :: (dumpsJson v ++ '\x7d' :: rest))) by
          simp [dumpsMembers, dumpsStr, List.append_assoc]]
        rw [parseMembers.eq_def]
        dsimp only
        rw [if_neg (by decide : ¬('"' : Char) = '\x7d'), if_pos rfl]
        rw [parseStringRest_escStr]
        have hhv := hv f ('\x7d' :: rest) hfv (notDigitStart_br _)
        simp [hhv]
      | cons m kvs2 =>
        have hfv : needJ v ≤ f := by
          simp [needM] at hf
          omega
        have hfm : needM (m :: kvs2) ≤ f := by
          simp [needM] at hf
          omega
        rw [show dumpsMembers ((k, v) :: m :: kvs2) ++ '\x7d' :: rest
            = '"' :: (escStr k ++ '"' :: (':' :: ' ' :: (dumpsJson v ++
                (',' :: ' ' :: (dumpsMembers (m :: kvs2) ++ '\x7d' :: rest))))) by
          simp [dumpsMembers, dumpsStr, List.append_assoc]]
        rw [parseMembers.eq_def]
        dsimp only
        rw [if_neg (by decide : ¬('"' : Char) = '\x7d'), if_pos rfl]
        rw [parseStringRest_escStr]
        have hhv := hv f (',' :: ' ' :: (dumpsMembers (m :: kvs2) ++ '\x7d' :: rest)) hfv
          (notDigitStart_cm _)
        have hih := ih (fun k2 v2 h2 => hks k2 v2 (by simp [h2])) f rest hfm
        simp [hhv, hih]

theorem rtgood_all : ∀ e : Json, RTgood e := by
  intro e
  induction e using jsonInd with
  | hnull =>
    intro fuel rest hf hr
    cases fuel with
    | zero => simp [needJ] at hf
    | succ f =>
      rw [show dumpsJson Json.null ++ rest = 'n' :: 'u' :: 'l' :: 'l' :: rest by
        simp [dumpsJson]]
      rw [parseJson.eq_def]
      dsimp only
      rw [if_pos rfl]
      rfl
  | hbool b =>
    intro fuel rest hf hr
    cases fuel with
    | zero => simp [needJ] at hf
    | succ f =>
      cases b with
      | true =>
        rw [show dumpsJson (Json.bool true) ++ rest = 't' :: 'r' :: 'u' :: 'e' :: rest by
          simp [dumpsJson]]
        rw [parseJson.eq_def]
        dsimp only
        rw [if_neg (by decide : ¬('t' : Char) = 'n'), if_pos rfl]
        rfl
      | false =>
        rw [show dumpsJson (Json.bool false) ++ rest
            = 'f' :: 'a' :: 'l' :: 's' :: 'e' :: rest by simp [dumpsJson]]
        rw [parseJson.eq_def]
        dsimp only
        rw [if_neg (by decide : ¬('f' : Char) = 'n'), if_neg (by decide : ¬('f' : Char) = 't'),
          if_pos rfl]
        rfl
  | hint n =>
    intro fuel rest hf hr
    cases fuel with
    | zero => simp [needJ] at hf
    | succ f =>
      rw [show dumpsJson (Json.int n) ++ rest = dumpsInt n ++ rest by simp [dumpsJson]]
      exact parseJson_dumpsInt n f rest hr
  | hstr s =>
    intro fuel rest hf hr
    cases fuel with
    | zero => simp [needJ] at hf
    | succ f =>
      rw [show dumpsJson (Json.str s) ++ rest = dumpsStr s ++ rest by simp [dumpsJson]]
      exact parseJson_dumpsStr s f rest
  | harr xs ih =>
    intro fuel rest hf hr
    cases fuel with
    | zero => simp [needJ] at hf
    | succ f =>
      have hfe : needE xs ≤ f := by
        simp [needJ] at hf
        omega
      rw [show dumpsJson (Json.arr xs) ++ rest = '[' :: (dumpsElems xs ++ ']' :: rest) by
        simp [dumpsJson, List.append_assoc]]
      rw [parseJson.eq_def]
      dsimp only
      rw [if_neg (by decide : ¬('[' : Char) = 'n'), if_neg (by decide : ¬('[' : Char) = 't'),
        if_neg (by decide : ¬('[' : Char) = 'f'), if_neg (by decide : ¬('[' : Char) = '"'),
        if_pos rfl]
      rw [parseElems_dumps xs ih f rest hfe]
  | hobj kvs ih =>
    intro fuel rest hf hr
    cases fuel with
    | zero => simp [needJ] at hf
    | succ f =>
      have hfm : needM kvs ≤ f := by
        simp [needJ] at hf
        omega
      rw [show dumpsJson (Json.obj kvs) ++ rest
          = '\x7b' :: (dumpsMembers kvs ++ '\x7d' :: rest) by
        simp [dumpsJson, List.append_assoc]]
      rw [parseJson.eq_def]
      dsimp only
      rw [if_neg (by decide : ¬('\x7b' : Char) = 'n'),
        if_neg (by decide : ¬('\x7b' : Char) = 't'),
        if_neg (by decide : ¬('\x7b' : Char) = 'f'),
        if_neg (by decide : ¬('\x7b' : Char) = '"'),
        if_neg (by decide : ¬('\x7b' : Char) = '['), if_pos rfl]
      rw [parseMembers_dumps kvs ih f rest hfm]

theorem needE_le (xs : List Json) (ih : ∀ x ∈ xs, needJ x ≤ (dumpsJson x).length) :
    needE xs ≤ (dumpsElems xs).length + 1 := by
  induction xs with
  | nil => simp [needE, dumpsElems]
  | cons x xs ihl =>
    cases xs with
    | nil =>
      have h1 := ih x (by simp)
      simp only [needE, dumpsElems]
      omega
    | cons y ys =>
      have h1 := ih x (by simp)
      have h2 := ihl (fun z hz => ih z (by simp [hz]))
      simp only [needE, dumpsElems, List.length_append, List.length_cons] at h2 ⊢
      omega

theorem needM_le (kvs : List (List Char × Json))
    (ih : ∀ k v, (k, v) ∈ kvs → needJ v ≤ (dumpsJson v).length) :
    needM kvs ≤ (dumpsMembers kvs).length + 1 := by
  induction kvs with
  | nil => simp [needM, dumpsMembers]
  | cons kv kvs ihl =>
    obtain ⟨k, v⟩ := kv
    cases kvs with
    | nil =>
      have h1 := ih k v (by simp)
      simp only [needM, dumpsMembers, List.length_append, List.length_cons]
      omega
    | cons m kvs2 =>
      have h1 := ih k v (by simp)
      have h2 := ihl (fun k2 v2 h2 => ih k2 v2 (by simp [h2]))
      simp only [needM, dumpsMembers, List.length_append, List.length_cons] at h2 ⊢
      omega

theorem needJ_le : ∀ e : Json, needJ e ≤ (dumpsJson e).length := by
  intro e
  induction e using jsonInd with
  | hnull => simp [needJ, dumpsJson]
  | hbool b => cases b <;> simp [needJ, dumpsJson]
  | hint n =>
    obtain ⟨c, t, hct, -, -⟩ := dumpsJson_head_ne (Json.int n)
    simp [needJ, hct]
  | hstr s => simp [needJ, dumpsJson, dumpsStr]
  | harr xs ih =>
    have h := needE_le xs ih
    simp only [needJ, dumpsJson, List.length_append, List.length_cons] at h ⊢
    omega
  | hobj kvs ih =>
    have h := needM_le kvs ih
    simp only [needJ, dumpsJson, List.length_append, List.length_cons] at h ⊢
    omega

theorem loads_dumpsJson (e : Json) : loads (dumpsJson e) = some e := by
  have hfuel : needJ e ≤ (dumpsJson e).length + 1 := le_trans (needJ_le e) (by omega)
  have h := rtgood_all e ((dumpsJson e).length + 1) [] hfuel rfl
  rw [List.append_nil] at h
  rw [loads, h]

theorem dumpsJson_inj {a b : Json} (h : dumpsJson a = dumpsJson b) : a = b := by
  have ha := loads_dumpsJson a
  rw [h] at ha
  have hb := loads_dumpsJson b
  rw [ha] at hb
  simpa using hb

/-! ## Claims about the serialize-then-parse round trip of appends -/

theorem findKey_entry (ts : List Char) (data : Json) :
    lookupKey dataKey (entryJson ts data) = some data := by
  have hne : ¬(tsKey = dataKey) := by decide
  simp [lookupKey, entryJson, findKey, hne]

theorem findKey_entry_ts (ts : List Char) (data : Json) :
    lookupKey tsKey (entryJson ts data) = some (Json.str ts) := by
  simp [lookupKey, entryJson, findKey]

/-- C1: for every valid Record (a JSON dict) and captured time, a
successful append adds exactly one new line to the log file: the new
content is the old content followed by `json.dumps(entry)` plus a newline,
the dumped line itself contains no newline (so the newline count rises by
exactly one), `json.loads` of that line gives back an Entry whose `data`
field is the input Record verbatim, and the Entry's timestamp string
parses as ISO-8601 UTC back to the captured instant. -/
theorem C1_append_roundtrip (errs : Nat → Option (List Char))
    (now : PyDateTime) (kvs : List (List Char × Json)) (f : List Char)
    (hv : validDT now = true)
    (hs : (append_to_jsonl errs now (Json.obj kvs) (some f)).result = Except.ok ()) :
    (append_to_jsonl errs now (Json.obj kvs) (some f)).file
      = some (f ++ dumpsJson (entryJson (isoformat now) (Json.obj kvs)) ++ ['\n'])
    ∧ (dumpsJson (entryJson (isoformat now) (Json.obj kvs))).count '\n' = 0
    ∧ loads (dumpsJson (entryJson (isoformat now) (Json.obj kvs)))
        = some (entryJson (isoformat now) (Json.obj kvs))
    ∧ lookupKey dataKey (entryJson (isoformat now) (Json.obj kvs)) = some (Json.obj kvs)
    ∧ parseIso (isoformat now) = some now := by
  refine ⟨?_, List.count_eq_zero.mpr (nl_not_mem_dumpsJson _), loads_dumpsJson _,
    findKey_entry _ _, parseIso_isoformat now hv⟩
  rcases append_cases errs now (Json.obj kvs) (some f) with ⟨heq, -⟩ | ⟨-, heq⟩
  · rw [heq]
    simp [entryLine, List.append_assoc]
  · rw [heq] at hs
    simp at hs

theorem C1_append_roundtrip_witness :
    validDT ⟨2024, 5, 17, 12, 30, 45, 123456⟩ = true ∧
    (append_to_jsonl (fun _ => none) ⟨2024, 5, 17, 12, 30, 45, 123456⟩
        (Json.obj []) (some [])).result = Except.ok () ∧
    ((append_to_jsonl (fun _ => none) ⟨2024, 5, 17, 12, 30, 45, 123456⟩
        (Json.obj []) (some [])).file
      = some (([] : List Char) ++
          dumpsJson (entryJson (isoformat ⟨2024, 5, 17, 12, 30, 45, 123456⟩) (Json.obj []))
          ++ ['\n'])
    ∧ (dumpsJson (entryJson (isoformat ⟨2024, 5, 17, 12, 30, 45, 123456⟩)
        (Json.obj []))).count '\n' = 0
    ∧ loads (dumpsJson (entryJson (isoformat ⟨2024, 5, 17, 12, 30, 45, 123456⟩)
        (Json.obj [])))
        = some (entryJson (isoformat ⟨2024, 5, 17, 12, 30, 45, 123456⟩) (Json.obj []))
    ∧ lookupKey dataKey (entryJson (isoformat ⟨2024, 5, 17, 12, 30, 45, 123456⟩)
        (Json.obj [])) = some (Json.obj [])
    ∧ parseIso (isoformat ⟨2024, 5, 17, 12, 30, 45, 123456⟩)
        = some ⟨2024, 5, 17, 12, 30, 45, 123456⟩) :=
  ⟨by decide, rfl,
    C1_append_roundtrip (fun _ => none) ⟨2024, 5, 17, 12, 30, 45, 123456⟩ [] []
      (by decide) rfl⟩

/-! ## C2: the returned/response timestamp versus the persisted one -/

/-- C2 counterexample: a concrete request during which the two `utcnow()`
readings differ by one microsecond.  The persisted Entry's timestamp field
is the first reading's `isoformat`; the HTTP 200 body's timestamp is the
second reading's, and the two strings differ — so the success response's
timestamp is not the persisted Entry's timestamp (and `append_to_jsonl`
itself returns `()`, not a timestamp). -/
theorem C2_response_timestamp_cex :
    (append_json (fun _ => none)
        (fun i => if i = 0 then ⟨2024, 1, 1, 0, 0, 0, 0⟩ else ⟨2024, 1, 1, 0, 0, 0, 1⟩)
        (Json.obj []) none).2
      = Except.ok ⟨"success".toList, "Data appended successfully".toList,
          isoformat ⟨2024, 1, 1, 0, 0, 0, 1⟩⟩
    ∧ (append_json (fun _ => none)
        (fun i => if i = 0 then ⟨2024, 1, 1, 0, 0, 0, 0⟩ else ⟨2024, 1, 1, 0, 0, 0, 1⟩)
        (Json.obj []) none).1
      = some (dumpsJson (entryJson (isoformat ⟨2024, 1, 1, 0, 0, 0, 0⟩) (Json.obj []))
          ++ ['\n'])
    ∧ lookupKey tsKey (entryJson (isoformat ⟨2024, 1, 1, 0, 0, 0, 0⟩) (Json.obj []))
        = some (Json.str (isoformat ⟨2024, 1, 1, 0, 0, 0, 0⟩))
    ∧ isoformat ⟨2024, 1, 1, 0, 0, 0, 1⟩ ≠ isoformat ⟨2024, 1, 1, 0, 0, 0, 0⟩ :=
  ⟨rfl, rfl, findKey_entry_ts _ _, by decide⟩

/-- C2 (amended): `append_to_jsonl` returns no value (Python `None`; unit
here), not the Entry's timestamp.  On success the endpoint builds the 200
body from a second, fresh `utcnow()` call made after the append (line
105), so the response's timestamp is the second clock reading's
`isoformat`, while the persisted Entry carries the first reading's; the
two agree only when the two readings render identically. -/
theorem C2_amended_response_timestamp (errs : Nat → Option (List Char))
    (clock : Nat → PyDateTime) (data : Json) (f : Option (List Char))
    (hs : (append_to_jsonl errs (clock 0) data f).result = Except.ok ()) :
    (append_json errs clock data f).2
      = Except.ok ⟨"success".toList, "Data appended successfully".toList,
          isoformat (clock 1)⟩
    ∧ (append_json errs clock data f).1
      = some ((f.getD []) ++ dumpsJson (entryJson (isoformat (clock 0)) data) ++ ['\n']) := by
  constructor
  · simp [append_json, hs]
  · have hfile : (append_to_jsonl errs (clock 0) data f).file
        = some ((f.getD []) ++ dumpsJson (entryJson (isoformat (clock 0)) data) ++ ['\n']) := by
      rcases append_cases errs (clock 0) data f with ⟨heq, -⟩ | ⟨-, heq⟩
      · rw [heq]
        simp [entryLine, List.append_assoc]
      · rw [heq] at hs
        simp at hs
    rcases hres : (append_to_jsonl errs (clock 0) data f).result with e | u
    · rw [hres] at hs
      simp at hs
    · simp [append_json, hres, hfile]

theorem C2_amended_response_timestamp_witness :
    (append_to_jsonl (fun _ => none)
        ((fun i => if i = 0 then ⟨2024, 1, 1, 0, 0, 0, 0⟩ else ⟨2024, 1, 1, 0, 0, 0, 1⟩) 0)
        (Json.obj []) none).result = Except.ok () ∧
    ((append_json (fun _ => none)
        (fun i => if i = 0 then ⟨2024, 1, 1, 0, 0, 0, 0⟩ else ⟨2024, 1, 1, 0, 0, 0, 1⟩)
        (Json.obj []) none).2
      = Except.ok ⟨"success".toList, "Data appended successfully".toList,
          isoformat ((fun i => if i = 0 then (⟨2024, 1, 1, 0, 0, 0, 0⟩ : PyDateTime)
            else ⟨2024, 1, 1, 0, 0, 0, 1⟩) 1)⟩
    ∧ (append_json (fun _ => none)
        (fun i => if i = 0 then ⟨2024, 1, 1, 0, 0, 0, 0⟩ else ⟨2024, 1, 1, 0, 0, 0, 1⟩)
        (Json.obj []) none).1
      = some ((Option.none.getD []) ++
          dumpsJson (entryJson (isoformat ((fun i => if i = 0 then
            (⟨2024, 1, 1, 0, 0, 0, 0⟩ : PyDateTime) else ⟨2024, 1, 1, 0, 0, 0, 1⟩) 0))
            (Json.obj [])) ++ ['\n'])) :=
  ⟨rfl, C2_amended_response_timestamp (fun _ => none)
    (fun i => if i = 0 then ⟨2024, 1, 1, 0, 0, 0, 0⟩ else ⟨2024, 1, 1, 0, 0, 0, 1⟩)
    (Json.obj []) none rfl⟩

/-! ## C5: when is the persisted timestamp captured? -/

/-- C5 counterexample: the body raises on attempt 1 and completes on
attempt 2, and the two clock readings differ by one microsecond.  The call
succeeds on attempt 2 (two loop iterations) yet persists the Entry built
from the pre-loop capture (`clock 0`); the spec's per-attempt-capture
reading (`appendPerAttemptCapture`, step 1 re-executed each attempt) would
persist the attempt-2 capture (`clock 1`), and the two files differ. -/
theorem C5_fresh_timestamp_cex :
    (append_to_jsonl (fun i => if i = 0 then some ['e'] else none)
        ⟨2024, 1, 1, 0, 0, 0, 0⟩ (Json.obj []) none).attempts = 2
    ∧ (append_to_jsonl (fun i => if i = 0 then some ['e'] else none)
        ⟨2024, 1, 1, 0, 0, 0, 0⟩ (Json.obj []) none).result = Except.ok ()
    ∧ (append_to_jsonl (fun i => if i = 0 then some ['e'] else none)
        ⟨2024, 1, 1, 0, 0, 0, 0⟩ (Json.obj []) none).file
      = some (dumpsJson (entryJson (isoformat ⟨2024, 1, 1, 0, 0, 0, 0⟩) (Json.obj []))
          ++ ['\n'])
    ∧ (appendPerAttemptCapture (fun i => if i = 0 then some ['e'] else none)
        (fun i => if i = 0 then ⟨2024, 1, 1, 0, 0, 0, 0⟩ else ⟨2024, 1, 1, 0, 0, 0, 1⟩)
        (Json.obj []) none 0 MAX_RETRIES).file
      = some (dumpsJson (entryJson (isoformat ⟨2024, 1, 1, 0, 0, 0, 1⟩) (Json.obj []))
          ++ ['\n'])
    ∧ (append_to_jsonl (fun i => if i = 0 then some ['e'] else none)
        ⟨2024, 1, 1, 0, 0, 0, 0⟩ (Json.obj []) none).file
      ≠ (appendPerAttemptCapture (fun i => if i = 0 then some ['e'] else none)
        (fun i => if i = 0 then ⟨2024, 1, 1, 0, 0, 0, 0⟩ else ⟨2024, 1, 1, 0, 0, 0, 1⟩)
        (Json.obj []) none 0 MAX_RETRIES).file := by
  refine ⟨rfl, rfl, rfl, rfl, ?_⟩
  intro h
  have h0 : some (dumpsJson (entryJson (isoformat ⟨2024, 1, 1, 0, 0, 0, 0⟩) (Json.obj []))
        ++ ['\n'])
      = some (dumpsJson (entryJson (isoformat ⟨2024, 1, 1, 0, 0, 0, 1⟩) (Json.obj []))
        ++ ['\n']) := h
  have h1 := Option.some.inj h0
  have h2 := (List.append_left_inj ['\n']).mp h1
  have h3 := dumpsJson_inj h2
  simp only [entryJson, Json.obj.injEq, List.cons.injEq, Prod.mk.injEq, Json.str.injEq,
    and_true, true_and] at h3
  exact absurd h3 (by decide)

/-- C5 (amended): retries re-execute only steps 2-4.  The Entry and its
timestamp are constructed once, before the retry loop, from the single
`utcnow()` call of the function; a call that succeeds on attempt k
therefore persists the Entry whose timestamp was captured before attempt
1, not one captured during attempt k. -/
theorem C5_amended_single_capture (errs : Nat → Option (List Char))
    (clock : Nat → PyDateTime) (data : Json) (f : Option (List Char))
    (hs : (append_to_jsonl errs (clock 0) data f).result = Except.ok ()) :
    (append_to_jsonl errs (clock 0) data f).file
      = some ((f.getD []) ++ dumpsJson (entryJson (isoformat (clock 0)) data) ++ ['\n']) := by
  rcases append_cases errs (clock 0) data f with ⟨heq, -⟩ | ⟨-, heq⟩
  · rw [heq]
    simp [entryLine, List.append_assoc]
  · rw [heq] at hs
    simp at hs

theorem C5_amended_single_capture_witness :
    (append_to_jsonl (fun i => if i = 0 then some ['e'] else none)
        ((fun _ => (⟨2024, 1, 1, 0, 0, 0, 0⟩ : PyDateTime)) 0)
        (Json.obj []) none).result = Except.ok () ∧
    (append_to_jsonl (fun i => if i = 0 then some ['e'] else none)
        ((fun _ => (⟨2024, 1, 1, 0, 0, 0, 0⟩ : PyDateTime)) 0) (Json.obj []) none).file
      = some ((Option.none.getD []) ++
          dumpsJson (entryJson (isoformat ((fun _ => (⟨2024, 1, 1, 0, 0, 0, 0⟩ : PyDateTime)) 0))
            (Json.obj [])) ++ ['\n']) :=
  ⟨rfl, C5_amended_single_capture (fun i => if i = 0 then some ['e'] else none)
    (fun _ => ⟨2024, 1, 1, 0, 0, 0, 0⟩) (Json.obj []) none rfl⟩

/-! ## C7: lock release and best-effort lock-file removal -/

/-- C7: on every attempt, whether the locked body completes or raises,
`file_lock` releases the exclusive lock in its `finally:` block before the
call returns or retries (the final lock state is not held, and the body
step runs while the lock is held), and the subsequent `os.remove` of the
lock file is best-effort: a removal failure is swallowed, leaving the
body's outcome — returned value or re-raised exception — unchanged. -/
theorem C7_release_unconditional_removal_best_effort (body : Except (List Char) Unit)
    (removeFails : Bool) (s0 : LockState) :
    (file_lock body removeFails).2 = body
    ∧ (runLock s0 (file_lock body removeFails).1).held = false
    ∧ (runLock s0 ((file_lock body removeFails).1.take 2)).held = true
    ∧ (file_lock body removeFails).1.take 5
        = [LockEv.openLock, LockEv.flockEx, LockEv.runBody, LockEv.flockUn, LockEv.closeFd]
    ∧ (file_lock body true).2 = (file_lock body false).2 := by
  cases removeFails <;> exact ⟨rfl, rfl, rfl, rfl, rfl⟩

/-! ## C10: host-wide mutual exclusion -/

/-- C10: the lock protocol does not guarantee that at most one writer
holds exclusive access to the log file path at a time.  `raceScript` is a
legal execution (every step enabled under POSIX flock/unlink semantics) of
three writers each running exactly `file_lock`'s operation sequence; after
it, writers B and C simultaneously hold exclusive `flock`s — on the old
and the recreated inode of the same lock-file path — and are both inside
the locked body that mutates the log file.  The post-unlock `os.remove`
of the lock file (line 45) opens this window on every append, so the
invariant the spec states (and the docstring's "ensures thread-safe file
operations") is violated by the code. -/
theorem C10_mutual_exclusion_violated :
    ∃ s : HostState, runScript initHost raceScript = some s
      ∧ s.pB.holding = true ∧ s.pC.holding = true
      ∧ s.pB.inCS = true ∧ s.pC.inCS = true := by
  exact ⟨_, rfl, rfl, rfl, rfl, rfl⟩

end Receiver
